import Mathlib

/-!
Formal model of the kardianos/imapdown mailbox archiver (package list,
Worker.List / Worker.Iter / Header / fn), shallowly embedded in Lean.

The repository code drives an IMAP session: for each mailbox it scans all
message envelopes, derives a 32-byte storage key from each MessageId with a
blake2b XOF and base32-encodes it into a filename, skips messages whose file
already exists, then fetches the bodies of the remaining messages, hashes
them, and writes one file per message consisting of a JSON metadata block,
the separator line made of three dashes and a newline, and the raw body.

External collaborators (the go-imap client, the blake2b and base32
primitives of the Go standard library and x/crypto, encoding/json, the
filesystem) are modelled at their call boundary: the cryptographic and
serialization primitives are abstract parameters collected in the Ext
structure, the IMAP server is a Conn value describing what each streaming
fetch delivers, and the store directory is a Store value.  The repository
functions themselves (Worker.Iter and fn) are translated statement by
statement below.  Context cancellation is not modelled: the select
statements in the source are taken in their fetch-terminal branch.

The base32 encoder is modelled concretely after RFC 4648 (standard
alphabet, no padding), matching base32.StdEncoding.WithPadding(NoPadding)
used at line 259 of the source.
-/

set_option maxRecDepth 8192

namespace Imapdown

/-- A byte, as handled by the Go code (elements of []byte). -/
abbrev Byte := Fin 256

/-- The 32-byte storage key: const keySize = 32; key := [keySize]byte{}. -/
abbrev Key := Mathlib.Vector Byte 32

/-- Builds a byte from a natural number (used by the UTF-8 and base32 models). -/
def mkByte (n : Nat) : Byte := ⟨n % 256, Nat.mod_lt _ (by omega)⟩

/-- UTF-8 encoding of one character, as Go produces for []byte(string). -/
def charBytes (c : Char) : List Byte :=
  let n := c.toNat
  if n < 128 then [mkByte n]
  else if n < 2048 then [mkByte (192 + n / 64), mkByte (128 + n % 64)]
  else if n < 65536 then
    [mkByte (224 + n / 4096), mkByte (128 + n / 64 % 64), mkByte (128 + n % 64)]
  else
    [mkByte (240 + n / 262144), mkByte (128 + n / 4096 % 64),
     mkByte (128 + n / 64 % 64), mkByte (128 + n % 64)]

/-- The bytes of a Go string: []byte(s) is the UTF-8 encoding of s. -/
def strBytes (s : String) : List Byte := s.data.flatMap charBytes

/-- The eight bits of a byte, most significant first. -/
def byteBits (b : Byte) : List Bool :=
  [b.val.testBit 7, b.val.testBit 6, b.val.testBit 5, b.val.testBit 4,
   b.val.testBit 3, b.val.testBit 2, b.val.testBit 1, b.val.testBit 0]

/-- Value of a big-endian bit list. -/
def bitsVal (l : List Bool) : Nat := l.foldl (fun a b => 2 * a + b.toNat) 0

/-- A 5-bit group value built from five bits, most significant first. -/
def fin5 (b0 b1 b2 b3 b4 : Bool) : Fin 32 :=
  ⟨(16 * b0.toNat + 8 * b1.toNat + 4 * b2.toNat + 2 * b3.toNat + b4.toNat) % 32,
   Nat.mod_lt _ (by omega)⟩

/-- Splits a bit stream into 5-bit groups; an incomplete final group is
padded with zero bits, as RFC 4648 base32 and Go encoding/base32 do. -/
def chunk5 : List Bool → List (Fin 32)
  | [] => []
  | [b0] => [fin5 b0 false false false false]
  | [b0, b1] => [fin5 b0 b1 false false false]
  | [b0, b1, b2] => [fin5 b0 b1 b2 false false]
  | [b0, b1, b2, b3] => [fin5 b0 b1 b2 b3 false]
  | b0 :: b1 :: b2 :: b3 :: b4 :: rest => fin5 b0 b1 b2 b3 b4 :: chunk5 rest

/-- The five bits of a 5-bit group value, most significant first. -/
def chunkBits (v : Fin 32) : List Bool :=
  [v.val.testBit 4, v.val.testBit 3, v.val.testBit 2, v.val.testBit 1, v.val.testBit 0]

/-- The RFC 4648 standard base32 alphabet used by base32.StdEncoding. -/
def b32alpha : List Char :=
  ['A', 'B', 'C', 'D', 'E', 'F', 'G', 'H', 'I', 'J', 'K', 'L', 'M',
   'N', 'O', 'P', 'Q', 'R', 'S', 'T', 'U', 'V', 'W', 'X', 'Y', 'Z',
   '2', '3', '4', '5', '6', '7']

/-- Alphabet character of a 5-bit value. -/
def alphaChar (v : Fin 32) : Char := b32alpha.getD v.val 'A'

/-- Unpadded standard base32 of the 32-byte key, the store filename built at
line 259 of the source. -/
def b32encode (key : Key) : String :=
  ⟨(chunk5 (key.toList.flatMap byteBits)).map alphaChar⟩

/-- Metadata block of a persisted record (type Header, source lines 237-247).
Hash carries the digest bytes exactly as the Go field []byte does. -/
structure Header where
  Key : String
  MessageID : String
  InReplyTo : String
  Date : String
  Folder : String
  Subject : String
  From : String
  Size : String
  Hash : List Byte
deriving DecidableEq

/-- External primitives consumed by the repository code, abstracted at their
call boundary: the blake2b XOF squeeze (32 bytes read after absorbing the
written input), the blake2b-256 digest, and the JSON encoding of a Header
with HTML escaping disabled (json.Encoder.Encode, which appends a newline).
The claims below quantify over every Ext; a concrete instance is given
further down only to build witnesses and counterexamples. -/
structure Ext where
  xofOut : List Byte → Key
  digest256 : List Byte → List Byte
  jsonEncode : Header → List Byte

/-- State of the shared blake2b XOF engine: the bytes absorbed since the
last reset.  Write appends to it; Reset clears it. -/
structure XOF where
  absorbed : List Byte

/-- Key derivation, source lines 249-261.
fn resets the shared XOF, writes the raw bytes of the message id, reads
exactly 32 bytes into the key buffer, and returns the unpadded base32
encoding of those bytes.  The two error returns in the source (a failed or
short XOF read) cannot occur for a 32-byte read of a fresh 32-byte-output
blake2b XOF, so the model is total; the XOF state after the call is
returned alongside the name, mirroring the mutation of the shared engine. -/
def fn (ext : Ext) (x : XOF) (msgID : String) : String × XOF :=
  -- xof.Reset()
  let x1 : XOF := { x with absorbed := [] }
  -- xof.Write([]byte(msgID))
  let x2 : XOF := { x1 with absorbed := x1.absorbed ++ strBytes msgID }
  -- n, err := xof.Read(key); n = len(key) = 32
  let key : Key := ext.xofOut x2.absorbed
  -- base32.StdEncoding.WithPadding(base32.NoPadding).EncodeToString(key)
  (b32encode key, x2)

/-- The derived store name of a message id: the first component of fn, which
is independent of the incoming XOF state because fn resets the engine. -/
def fnName (ext : Ext) (msgID : String) : String := (fn ext ⟨[]⟩ msgID).1

/-- One sender address of an envelope (imap.Address). -/
structure Address where
  personalName : String
  mailboxName : String
  hostName : String
deriving DecidableEq

/-- Envelope metadata of a message (the imap.Envelope fields the code touches).
date holds the RFC3339Nano formatting of the Date field; the time.Time
formatter is external to the repository and value-preserving here. -/
structure Envelope where
  messageId : String
  inReplyTo : String
  date : String
  subject : String
  fromAddrs : List Address
deriving DecidableEq

/-- Result of reading the BODY[] section literal of a fetched message:
GetBody returns nil when the section is absent; a present literal either
yields all its bytes or fails partway through the tee copy. -/
inductive BodyVal where
  | absent
  | bytes (bs : List Byte)
  | failAfter (bs : List Byte)
deriving DecidableEq

/-- A streamed imap.Message: server-local sequence number, UID, envelope,
and the BODY[] section content (only meaningful on the second fetch). -/
structure Msg where
  seqNum : Nat
  uid : Nat
  envelope : Envelope
  body : BodyVal
deriving DecidableEq

/-- Derived store name of a message, as computed by both phases of Iter:
fn(xof, key, msg.Envelope.MessageId). -/
def msgKey (ext : Ext) (m : Msg) : String := fnName ext m.envelope.messageId

/-- The store directory: existing files (name and content), plus the names
on which os.Stat fails with an error other than not-exists, and the names
on which os.WriteFile fails. -/
structure Store where
  files : List (String × List Byte)
  statFails : List String
  writeFails : List String
deriving DecidableEq

/-- Result of os.Stat on a store filename. -/
inductive StatRes where
  | found
  | notExist
  | failed
deriving DecidableEq

/-- os.Stat(filepath.Join(w.Store, name)) on the modelled store. -/
def Store.stat (st : Store) (name : String) : StatRes :=
  if name ∈ st.statFails then .failed
  else if name ∈ st.files.map Prod.fst then .found
  else .notExist

/-- Whether a file with the given name exists in the store. -/
def Store.hasFile (st : Store) (name : String) : Prop :=
  name ∈ st.files.map Prod.fst

instance (st : Store) (name : String) : Decidable (st.hasFile name) :=
  inferInstanceAs (Decidable (name ∈ st.files.map Prod.fst))

/-- os.WriteFile: creates or truncates the file with the given content. -/
def Store.insert (st : Store) (name : String) (content : List Byte) : Store :=
  { st with files := (name, content) :: st.files }

/-- Content of a store file, first entry wins (later writes are consed on). -/
def Store.find (st : Store) (name : String) : Option (List Byte) :=
  (st.files.find? (fun p => p.1 = name)).map Prod.snd

/-- What one streaming c.Fetch call delivers: the messages pushed on the
channel before it closes, then the deferred terminal error (none on
success), whose text is what err.Error() would return. -/
structure FetchResult where
  msgs : List Msg
  term : Option String
deriving DecidableEq

/-- Behavior of the selected mailbox on the wire: the result of
c.Select, of the envelope fetch over 1:*, and of the body fetch for any
requested set of sequence numbers. -/
structure Conn where
  selectErr : Option String
  envFetch : FetchResult
  bodyFetch : List Nat → FetchResult

/-- A mailbox list entry; only the name is used by Iter. -/
structure MailboxInfo where
  name : String
deriving DecidableEq

/-- Errors returned by Iter, one constructor per return site in the source.
fetchWrapped stands for the wrapped fetch error of line 133, hashBody for
the error of line 183 built without the underlying cause, bodyFetchTerm for
the terminal error of the second fetch returned unwrapped at line 229. -/
inductive IterErr where
  | selectErr (e : String)
  | statFail (name : String)
  | fetchWrapped (e : String)
  | hashBody
  | writeErr (name : String)
  | bodyFetchTerm (e : String)
deriving DecidableEq

/-- How a call to Iter ends: a nil return, an error return, or the runtime
panic raised when io.Copy reads through a TeeReader over a nil literal. -/
inductive Outcome where
  | ok
  | err (e : IterErr)
  | panicNilBody
deriving DecidableEq

/-- List membership check on characters, used to model strings.Contains. -/
def startsWithList : List Char → List Char → Bool
  | [], _ => true
  | _ :: _, [] => false
  | p :: ps, c :: cs => p == c && startsWithList ps cs

/-- strings.Contains on character lists. -/
def containsList (pat : List Char) : List Char → Bool
  | [] => startsWithList pat []
  | l@(_ :: cs) => startsWithList pat l || containsList pat cs

/-- strings.Contains(e, "No matching messages"), the recovered condition of
line 134. -/
def noMatching (e : String) : Bool :=
  containsList "No matching messages".data e.data

/-- Dedup scan loop over the envelope stream, source lines 107-124.
For each message: derive the name with fn, os.Stat it in the store; a nil
stat error bumps existCount, a not-exists error appends the sequence number
to msgList, any other stat error aborts with the wrapped stat error
carrying that name.  fn itself cannot fail (see fn above). -/
def scanLoop (ext : Ext) (st : Store) :
    List Msg → Nat → List Nat → Except String (Nat × List Nat)
  | [], existCount, msgList => .ok (existCount, msgList)
  | m :: rest, existCount, msgList =>
    match st.stat (msgKey ext m) with
    | .found => scanLoop ext st rest (existCount + 1) msgList
    | .notExist => scanLoop ext st rest existCount (msgList ++ [m.seqNum])
    | .failed => .error (msgKey ext m)

/-- Number of scanned messages whose file already exists. -/
def scanExist (ext : Ext) (st : Store) (msgs : List Msg) : Nat :=
  msgs.countP (fun m => st.stat (msgKey ext m) == .found)

/-- Sequence numbers of scanned messages whose file does not exist yet, in
stream order. -/
def scanPend (ext : Ext) (st : Store) (msgs : List Msg) : List Nat :=
  (msgs.filter (fun m => st.stat (msgKey ext m) == .notExist)).map Msg.seqNum

/-- Sender display string, source lines 186-194: the first From address
formatted with or without its personal name, empty when there is none. -/
def fromGo (e : Envelope) : String :=
  match e.fromAddrs with
  | [] => ""
  | f :: _ =>
    if f.personalName.length > 0 then
      f.personalName ++ " <" ++ f.mailboxName ++ "@" ++ f.hostName ++ ">"
    else
      "<" ++ f.mailboxName ++ "@" ++ f.hostName ++ ">"

/-- The Header assembled for a message whose body bytes are bs, source
lines 196-205.  InReplyTo is the Go zero value: the source never assigns
this field.  Size is strconv.FormatInt(int64(bodyBuf.Len()), 10), the
decimal digits of the body length.  Hash is bodyHasher.Sum(nil) where the
hasher consumed exactly bs through the tee reader. -/
def mkHeader (ext : Ext) (folder : String) (m : Msg) (bs : List Byte) : Header :=
  { Key := msgKey ext m
    MessageID := m.envelope.messageId
    InReplyTo := ""
    Date := m.envelope.date
    Folder := folder
    Subject := m.envelope.subject
    From := fromGo m.envelope
    Size := Nat.repr bs.length
    Hash := ext.digest256 bs }

/-- The separator written between metadata and body: headerSep = []byte of
the three dashes and the newline, source line 161. -/
def sepBytes : List Byte := strBytes "---\n"

/-- The full file content assembled in buf for one message, source lines
206-216: the JSON encoding of the header (json.Encoder.Encode output, which
ends with a newline), then headerSep, then the body bytes copied back out
of bodyBuf. -/
def recFile (ext : Ext) (folder : String) (m : Msg) (bs : List Byte) : List Byte :=
  ext.jsonEncode (mkHeader ext folder m bs) ++ sepBytes ++ bs

/-- Per-message outcome of the body loop before the write, source lines
171-216: a nil GetBody literal makes the tee copy dereference a nil reader
(runtime panic); a mid-stream body read error returns the hash-body error;
otherwise the record file is assembled in memory. -/
inductive StepRes where
  | wrote (name : String) (file : List Byte)
  | nilBody
  | readFail
deriving DecidableEq

/-- Processing of one message of the body stream up to the write, source
lines 171-216.  The name is derived first (line 175); then the body literal
is read through the tee reader while hashing (lines 180-184). -/
def persistStep (ext : Ext) (folder : String) (m : Msg) : StepRes :=
  match m.body with
  | .absent => .nilBody
  | .failAfter _ => .readFail
  | .bytes bs => .wrote (msgKey ext m) (recFile ext folder m bs)

/-- Result of the body fetch phase: how it ended, the store after its
writes, and the writes it performed in order. -/
structure Phase2Out where
  outcome : Outcome
  store : Store
  writes : List (String × List Byte)
deriving DecidableEq

/-- Body fetch and persist loop, source lines 170-231.  Every streamed
message is processed in order; a write failure or body failure aborts with
the store as written so far.  After the stream is drained the deferred
terminal error of the fetch is awaited and returned unwrapped (lines
224-231); on success Iter proceeds to the nil return of line 234. -/
def persistLoop (ext : Ext) (folder : String) (term : Option String) :
    List Msg → Store → List (String × List Byte) → Phase2Out
  | [], st, ws =>
    match term with
    | some e => ⟨.err (.bodyFetchTerm e), st, ws⟩
    | none => ⟨.ok, st, ws⟩
  | m :: rest, st, ws =>
    match persistStep ext folder m with
    | .nilBody => ⟨.panicNilBody, st, ws⟩
    | .readFail => ⟨.err .hashBody, st, ws⟩
    | .wrote name file =>
      if name ∈ st.writeFails then ⟨.err (.writeErr name), st, ws⟩
      else persistLoop ext folder term rest (st.insert name file) (ws ++ [(name, file)])

/-- Result of one Iter call: its outcome, the store afterwards, the files it
wrote in order, the existing count of the scan, and the pending sequence
numbers handed to the body fetch. -/
structure IterOut where
  outcome : Outcome
  store : Store
  writes : List (String × List Byte)
  existCount : Nat
  pending : List Nat

/-- Worker.Iter, source lines 78-235, for one mailbox.

Select the mailbox read-only (line 84); parse the 1:* sequence set and
build the XOF engine (lines 89-99, infallible for these constants); drain
the envelope fetch through the scan loop (lines 101-124); await its
terminal error, recovering the no-matching-messages condition as a nil
return (lines 125-139); return nil when nothing is pending (lines
141-146); otherwise fetch the pending bodies and run the persist loop
(lines 148-234).  The ctx.Done branches of both rendezvous selects are not
modelled; the fetch-terminal branches are taken. -/
def iter (ext : Ext) (mi : MailboxInfo) (conn : Conn) (st : Store) : IterOut :=
  match conn.selectErr with
  | some e => ⟨.err (.selectErr e), st, [], 0, []⟩
  | none =>
    match scanLoop ext st conn.envFetch.msgs 0 [] with
    | .error name => ⟨.err (.statFail name), st, [], 0, []⟩
    | .ok (existCount, msgList) =>
      match conn.envFetch.term with
      | some e =>
        if noMatching e then ⟨.ok, st, [], existCount, msgList⟩
        else ⟨.err (.fetchWrapped e), st, [], existCount, msgList⟩
      | none =>
        if msgList.isEmpty then ⟨.ok, st, [], existCount, msgList⟩
        else
          ⟨(persistLoop ext mi.name (conn.bodyFetch msgList).term
              (conn.bodyFetch msgList).msgs st []).outcome,
            (persistLoop ext mi.name (conn.bodyFetch msgList).term
              (conn.bodyFetch msgList).msgs st []).store,
            (persistLoop ext mi.name (conn.bodyFetch msgList).term
              (conn.bodyFetch msgList).msgs st []).writes,
            existCount, msgList⟩

/-! Concrete instantiation of the external primitives, used only to build
witnesses and counterexamples.  Every claim theorem below quantifies over
an arbitrary Ext; none of them depends on this instance's behavior beyond
its type (in particular the 32-byte key size, which is the source's
const keySize = 32). -/

/-- A concrete stand-in for the external primitives: the XOF squeeze keeps
the first 32 absorbed bytes (zero padded), the digest prepends the length
byte to a truncation, and the JSON encoding joins the fields with bars and
ends with the newline json.Encoder.Encode appends. -/
def extModel : Ext where
  xofOut bs := Mathlib.Vector.ofFn (fun i => bs.getD i.val (0 : Byte))
  digest256 bs := mkByte bs.length :: bs.take 31
  jsonEncode h :=
    strBytes (h.Key ++ "|" ++ h.MessageID ++ "|" ++ h.InReplyTo ++ "|" ++
      h.Date ++ "|" ++ h.Folder ++ "|" ++ h.Subject ++ "|" ++ h.From ++ "|" ++
      h.Size ++ "|") ++ h.Hash ++ strBytes "\n"

/-- The store directory with no files and no induced IO failures. -/
def emptyStore : Store := ⟨[], [], []⟩

/-- A mailbox list entry named INBOX. -/
def miInbox : MailboxInfo := ⟨"INBOX"⟩

/-- A concrete message: sequence number 1, id a@x, a sender with a display
name, an in-reply-to parent, and body bytes B1. -/
def msgA : Msg :=
  ⟨1, 11, ⟨"a@x", "parent@x", "2020-01-02T03:04:05.000000006Z", "hi",
    [⟨"Ann", "ann", "x"⟩]⟩, .bytes (strBytes "B1")⟩

/-- A second concrete message with a distinct id b@x and body B2. -/
def msgB : Msg :=
  ⟨2, 12, ⟨"b@x", "", "2021-06-07T08:09:10.000000011Z", "re", []⟩,
    .bytes (strBytes "B2")⟩

/-- Two messages of one mailbox carrying the same MessageId dup@x. -/
def msgDup1 : Msg :=
  ⟨1, 21, ⟨"dup@x", "", "2020-01-01T00:00:00Z", "s1", []⟩, .bytes (strBytes "D1")⟩

/-- Second copy of dup@x, different body. -/
def msgDup2 : Msg :=
  ⟨2, 22, ⟨"dup@x", "", "2020-01-01T00:00:01Z", "s2", []⟩, .bytes (strBytes "D2")⟩

/-- The payload carried by a body value (the bytes delivered before a
failure, or nothing for an absent section). -/
def bodyBytes (m : Msg) : List Byte :=
  match m.body with
  | .absent => []
  | .bytes bs => bs
  | .failAfter bs => bs

/-- The write a fully processed message produces: its derived filename and
its record file. -/
def writeOf (ext : Ext) (folder : String) (m : Msg) : String × List Byte :=
  (msgKey ext m, recFile ext folder m (bodyBytes m))

/-- The store after the writes of a list of fully processed messages. -/
def storeAfter (ext : Ext) (folder : String) (ms : List Msg) (st : Store) : Store :=
  ms.foldl (fun s m => s.insert (writeOf ext folder m).1 (writeOf ext folder m).2) st

/-- A server that answers the body fetch from the same mailbox state the
envelope fetch streamed: sequence numbers are unambiguous, and every body
message is one of the scanned messages (same envelope) whose sequence
number was actually requested. -/
def WellFormedConn (conn : Conn) : Prop :=
  (conn.envFetch.msgs.map Msg.seqNum).Nodup ∧
  ∀ pend : List Nat, ∀ m ∈ (conn.bodyFetch pend).msgs,
    m.seqNum ∈ pend ∧
    ∃ m0 ∈ conn.envFetch.msgs, m0.seqNum = m.seqNum ∧ m0.envelope = m.envelope

/-- A mailbox delivering msgA on both fetches, everything succeeding. -/
def connGood : Conn := ⟨none, ⟨[msgA], none⟩, fun _ => ⟨[msgA], none⟩⟩

/-- A mailbox whose body fetch terminates with the no-matching-messages
error after delivering nothing. -/
def connBodyNoMatch : Conn :=
  ⟨none, ⟨[msgA], none⟩, fun _ => ⟨[], some "No matching messages"⟩⟩

/-- A mailbox whose envelope fetch terminates with the no-matching-messages
error, as an empty mailbox does on the fetch of 1:*. -/
def connEnvNoMatch : Conn :=
  ⟨none, ⟨[], some "imap: No matching messages (Failure)"⟩, fun _ => ⟨[], none⟩⟩

/-- A mailbox streaming two distinct messages with the same MessageId. -/
def connDup : Conn :=
  ⟨none, ⟨[msgDup1, msgDup2], none⟩, fun _ => ⟨[msgDup1, msgDup2], none⟩⟩

/-- Second copy of dup@x whose body read fails before any byte. -/
def msgDup2F : Msg :=
  ⟨2, 22, ⟨"dup@x", "", "2020-01-01T00:00:01Z", "s2", []⟩, .failAfter []⟩

/-- A mailbox with two same-id messages where the second body read fails. -/
def connDupFail : Conn :=
  ⟨none, ⟨[msgDup1, msgDup2F], none⟩, fun _ => ⟨[msgDup1, msgDup2F], none⟩⟩

/-- msgB with a body stream that fails after delivering nothing. -/
def msgBFail : Msg :=
  ⟨2, 12, ⟨"b@x", "", "2021-06-07T08:09:10.000000011Z", "re", []⟩, .failAfter []⟩

/-- A mailbox where msgA persists and then the body read of msgB fails. -/
def connAthenFail : Conn :=
  ⟨none, ⟨[msgA, msgBFail], none⟩, fun _ => ⟨[msgA, msgBFail], none⟩⟩

/-- msgA as delivered by a body fetch without the requested section, so
GetBody returns nil. -/
def msgANilBody : Msg :=
  ⟨1, 11, ⟨"a@x", "parent@x", "2020-01-02T03:04:05.000000006Z", "hi",
    [⟨"Ann", "ann", "x"⟩]⟩, .absent⟩

/-- A mailbox whose body fetch delivers msgA without its body section. -/
def connNilBody : Conn := ⟨none, ⟨[msgA], none⟩, fun _ => ⟨[msgANilBody], none⟩⟩

/-- A mailbox streaming msgA with nothing pending to fetch. -/
def connScanOnly : Conn := ⟨none, ⟨[msgA], none⟩, fun _ => ⟨[], none⟩⟩

/-- A store already holding a file named by the key of msgA. -/
def storeWithA : Store := ⟨[(msgKey extModel msgA, [])], [], []⟩

/-- A store already holding a file named by the key of msgB. -/
def storeWithB : Store := ⟨[(msgKey extModel msgB, [])], [], []⟩

/-- A well-formed mailbox: the envelope fetch streams msgA and msgB, and
the body fetch answers exactly the requested sequence numbers from the
same mailbox state (msgA for its number 1, nothing otherwise). -/
def connWf : Conn :=
  ⟨none, ⟨[msgA, msgB], none⟩,
    fun pend => if pend = [1] then ⟨[msgA], none⟩ else ⟨[], none⟩⟩

/-! Injectivity of the base32 filename encoding on 32-byte keys.  The bits
of a byte list are recovered from the 5-bit groups, so two keys with equal
encodings have equal bits and hence equal bytes. -/

theorem byteBits_recover : ∀ b : Byte, bitsVal (byteBits b) = b.val := by decide

theorem byteBits_inj {b1 b2 : Byte} (h : byteBits b1 = byteBits b2) : b1 = b2 := by
  have h1 := byteBits_recover b1
  have h2 := byteBits_recover b2
  rw [h] at h1
  exact Fin.ext (h1 ▸ h2)

theorem flatMap_byteBits_length (l : List Byte) :
    (l.flatMap byteBits).length = 8 * l.length := by
  induction l with
  | nil => simp
  | cons a rest ih =>
    simp only [List.flatMap_cons, List.length_append, ih, byteBits, List.length_cons]
    simp
    omega

theorem flatMap_byteBits_inj : ∀ l1 l2 : List Byte, l1.length = l2.length →
    l1.flatMap byteBits = l2.flatMap byteBits → l1 = l2 := by
  intro l1
  induction l1 with
  | nil => intro l2 h _; cases l2 <;> simp_all
  | cons a rest ih =>
    intro l2 hlen heq
    cases l2 with
    | nil => simp at hlen
    | cons b rest2 =>
      simp only [List.flatMap_cons] at heq
      obtain ⟨h1, h2⟩ := List.append_inj heq (by simp [byteBits])
      have hab := byteBits_inj h1
      subst hab
      have := ih rest2 (by simpa using hlen) h2
      rw [this]

theorem chunkBits_fin5 : ∀ b0 b1 b2 b3 b4 : Bool,
    chunkBits (fin5 b0 b1 b2 b3 b4) = [b0, b1, b2, b3, b4] := by decide

theorem chunk5_recover : ∀ l : List Bool,
    (chunk5 l).flatMap chunkBits = l ++ List.replicate ((5 - l.length % 5) % 5) false := by
  intro l
  induction l using chunk5.induct with
  | case1 => simp [chunk5]
  | case2 b0 => simp [chunk5, chunkBits_fin5, List.replicate]
  | case3 b0 b1 => simp [chunk5, chunkBits_fin5, List.replicate]
  | case4 b0 b1 b2 => simp [chunk5, chunkBits_fin5, List.replicate]
  | case5 b0 b1 b2 b3 => simp [chunk5, chunkBits_fin5, List.replicate]
  | case6 b0 b1 b2 b3 b4 rest ih =>
    simp only [chunk5, List.flatMap_cons, chunkBits_fin5, ih, List.length_cons]
    have h : (rest.length + 1 + 1 + 1 + 1 + 1) % 5 = rest.length % 5 := by omega
    rw [h]
    simp

theorem alphaChar_inj : ∀ v w : Fin 32, alphaChar v = alphaChar w → v = w := by decide

theorem b32encode_inj {k1 k2 : Key} (h : b32encode k1 = b32encode k2) : k1 = k2 := by
  have hchars : (chunk5 (k1.toList.flatMap byteBits)).map alphaChar =
      (chunk5 (k2.toList.flatMap byteBits)).map alphaChar :=
    congrArg String.data h
  have hchunks : chunk5 (k1.toList.flatMap byteBits) =
      chunk5 (k2.toList.flatMap byteBits) :=
    List.map_injective_iff.mpr (fun v w hvw => alphaChar_inj v w hvw) hchars
  have hlen1 : (k1.toList.flatMap byteBits).length = 256 := by
    rw [flatMap_byteBits_length, k1.toList_length]
  have hlen2 : (k2.toList.flatMap byteBits).length = 256 := by
    rw [flatMap_byteBits_length, k2.toList_length]
  have hrec1 := chunk5_recover (k1.toList.flatMap byteBits)
  have hrec2 := chunk5_recover (k2.toList.flatMap byteBits)
  rw [hchunks, hrec2, hlen1, hlen2] at hrec1
  have hbits : k1.toList.flatMap byteBits = k2.toList.flatMap byteBits := by
    have := List.append_inj hrec1.symm (by rw [hlen1, hlen2])
    exact this.1
  have htl : k1.toList = k2.toList :=
    flatMap_byteBits_inj _ _ (by rw [k1.toList_length, k2.toList_length]) hbits
  exact Mathlib.Vector.toList_injective htl

/-! Facts about the key derivation fn. -/

theorem fnName_eq (ext : Ext) (m : String) :
    fnName ext m = b32encode (ext.xofOut (strBytes m)) := by
  simp [fnName, fn]

theorem fnName_collision (ext : Ext) :
    ∃ m1 m2 : String, m1 ≠ m2 ∧ fnName ext m1 = fnName ext m2 := by
  obtain ⟨m1, m2, hne, heq⟩ :=
    Finite.exists_ne_map_eq_of_infinite (fun s : String => ext.xofOut (strBytes s))
  exact ⟨m1, m2, hne, by rw [fnName_eq, fnName_eq, heq]⟩

/-! Characterization of the dedup scan loop. -/

theorem scanLoop_char (ext : Ext) (st : Store) : ∀ (msgs : List Msg) (e : Nat) (p : List Nat),
    (∀ m ∈ msgs, st.stat (msgKey ext m) ≠ .failed) →
    scanLoop ext st msgs e p =
      .ok (e + scanExist ext st msgs, p ++ scanPend ext st msgs) := by
  intro msgs
  induction msgs with
  | nil => intro e p _; simp [scanLoop, scanExist, scanPend]
  | cons m rest ih =>
    intro e p h
    have hm := h m (by simp)
    cases hstat : st.stat (msgKey ext m) with
    | failed => exact absurd hstat hm
    | found =>
      simp only [scanLoop, hstat]
      rw [ih (e + 1) p (fun q hq => h q (by simp [hq]))]
      simp only [scanExist, scanPend, List.countP_cons, List.filter_cons, hstat]
      simp
      omega
    | notExist =>
      simp only [scanLoop, hstat]
      rw [ih e (p ++ [m.seqNum]) (fun q hq => h q (by simp [hq]))]
      simp only [scanExist, scanPend, List.countP_cons, List.filter_cons, hstat]
      simp

theorem scanLoop_ok_no_failed (ext : Ext) (st : Store) :
    ∀ (msgs : List Msg) (e : Nat) (p : List Nat) (r : Nat × List Nat),
    scanLoop ext st msgs e p = .ok r →
    ∀ m ∈ msgs, st.stat (msgKey ext m) ≠ .failed := by
  intro msgs
  induction msgs with
  | nil => intro e p r _ m hm; cases hm
  | cons m0 rest ih =>
    intro e p r hs m hm
    cases hstat : st.stat (msgKey ext m0) with
    | failed => rw [scanLoop, hstat] at hs; cases hs
    | found =>
      rw [scanLoop, hstat] at hs
      rcases List.mem_cons.mp hm with rfl | hm2
      · simp [hstat]
      · exact ih (e + 1) p r hs m hm2
    | notExist =>
      rw [scanLoop, hstat] at hs
      rcases List.mem_cons.mp hm with rfl | hm2
      · simp [hstat]
      · exact ih e (p ++ [m0.seqNum]) r hs m hm2

theorem scanPend_mem (ext : Ext) (st : Store) (msgs : List Msg) (s : Nat)
    (h : s ∈ scanPend ext st msgs) :
    ∃ m ∈ msgs, m.seqNum = s ∧ st.stat (msgKey ext m) = .notExist := by
  simp only [scanPend, List.mem_map, List.mem_filter] at h
  obtain ⟨m, ⟨hmem, hstat⟩, hseq⟩ := h
  exact ⟨m, hmem, hseq, by simpa using hstat⟩

/-! Characterization of the body fetch and persist loop. -/

theorem Store.insert_writeFails (st : Store) (n : String) (c : List Byte) :
    (st.insert n c).writeFails = st.writeFails := rfl

theorem Store.insert_statFails (st : Store) (n : String) (c : List Byte) :
    (st.insert n c).statFails = st.statFails := rfl

theorem writeOf_fst (ext : Ext) (folder : String) (m : Msg) :
    (writeOf ext folder m).1 = msgKey ext m := rfl

theorem persistStep_eq_wrote (ext : Ext) (folder : String) (m : Msg)
    (h : m.body = .bytes (bodyBytes m)) :
    persistStep ext folder m =
      .wrote (msgKey ext m) (recFile ext folder m (bodyBytes m)) := by
  cases hb : m.body with
  | absent => rw [hb] at h; cases h
  | failAfter bs => rw [hb] at h; cases h
  | bytes bs =>
    have hbb : bodyBytes m = bs := by simp [bodyBytes, hb]
    simp [persistStep, hb, hbb]

theorem persistLoop_pre (ext : Ext) (folder : String) (term : Option String) :
    ∀ (pre ms2 : List Msg) (st : Store) (ws : List (String × List Byte)),
    (∀ p ∈ pre, p.body = .bytes (bodyBytes p) ∧ msgKey ext p ∉ st.writeFails) →
    persistLoop ext folder term (pre ++ ms2) st ws =
      persistLoop ext folder term ms2 (storeAfter ext folder pre st)
        (ws ++ pre.map (writeOf ext folder)) := by
  intro pre
  induction pre with
  | nil => intro ms2 st ws _; simp [storeAfter]
  | cons p rest ih =>
    intro ms2 st ws h
    obtain ⟨hb, hw⟩ := h p (by simp)
    simp only [List.cons_append, persistLoop, persistStep_eq_wrote ext folder p hb]
    rw [if_neg hw]
    simp only [List.append_eq]
    rw [ih ms2 _ _ (fun q hq =>
      ⟨(h q (by simp [hq])).1, by
        rw [Store.insert_writeFails]; exact (h q (by simp [hq])).2⟩)]
    simp only [storeAfter, List.foldl_cons, List.map_cons, writeOf]
    simp

theorem persistLoop_split (ext : Ext) (folder : String) (term : Option String) :
    ∀ (ms : List Msg) (st : Store) (ws : List (String × List Byte)),
    ∃ ms1 ms2, ms = ms1 ++ ms2 ∧
      (∀ m ∈ ms1, m.body = .bytes (bodyBytes m)) ∧
      (persistLoop ext folder term ms st ws).writes = ws ++ ms1.map (writeOf ext folder) ∧
      (persistLoop ext folder term ms st ws).store = storeAfter ext folder ms1 st := by
  intro ms
  induction ms with
  | nil =>
    intro st ws
    refine ⟨[], [], rfl, by simp, ?_, ?_⟩ <;> cases term <;> simp [persistLoop, storeAfter]
  | cons m rest ih =>
    intro st ws
    cases hb : m.body with
    | absent =>
      exact ⟨[], m :: rest, rfl, by simp, by simp [persistLoop, persistStep, hb],
        by simp [persistLoop, persistStep, hb, storeAfter]⟩
    | failAfter bs =>
      exact ⟨[], m :: rest, rfl, by simp, by simp [persistLoop, persistStep, hb],
        by simp [persistLoop, persistStep, hb, storeAfter]⟩
    | bytes bs =>
      have hbeq : m.body = .bytes (bodyBytes m) := by simp [bodyBytes, hb]
      by_cases hw : msgKey ext m ∈ st.writeFails
      · refine ⟨[], m :: rest, rfl, by simp, ?_, ?_⟩ <;>
          simp [persistLoop, persistStep_eq_wrote ext folder m hbeq, hw, storeAfter]
      · obtain ⟨ms1, ms2, hsplit, hall, hwr, hst⟩ :=
          ih (st.insert (msgKey ext m) (recFile ext folder m (bodyBytes m)))
            (ws ++ [(msgKey ext m, recFile ext folder m (bodyBytes m))])
        refine ⟨m :: ms1, ms2, by rw [List.cons_append, hsplit], ?_, ?_, ?_⟩
        · intro q hq
          rcases List.mem_cons.mp hq with rfl | hq2
          · exact hbeq
          · exact hall q hq2
        · simp only [persistLoop, persistStep_eq_wrote ext folder m hbeq, if_neg hw, hwr]
          simp [writeOf]
        · simp only [persistLoop, persistStep_eq_wrote ext folder m hbeq, if_neg hw, hst]
          simp [storeAfter, writeOf]

theorem storeAfter_files (ext : Ext) (folder : String) :
    ∀ (ms : List Msg) (st : Store),
    (storeAfter ext folder ms st).files =
      (ms.map (writeOf ext folder)).reverse ++ st.files := by
  intro ms
  induction ms with
  | nil => intro st; simp [storeAfter]
  | cons m rest ih =>
    intro st
    simp only [storeAfter, List.foldl_cons] at ih ⊢
    rw [ih]
    simp [Store.insert]

theorem storeAfter_hasFile (ext : Ext) (folder : String) (ms : List Msg) (st : Store)
    (k : String) :
    (storeAfter ext folder ms st).hasFile k ↔ k ∈ ms.map (msgKey ext) ∨ st.hasFile k := by
  simp [Store.hasFile, storeAfter_files, List.map_map, Function.comp, writeOf]

theorem Store.find_insert_ne (st : Store) (n : String) (f : List Byte) (k : String)
    (h : n ≠ k) : (st.insert n f).find k = st.find k := by
  simp [Store.find, Store.insert, List.find?_cons, h]

theorem storeAfter_find (ext : Ext) (folder : String) :
    ∀ (ms : List Msg) (st : Store) (k : String), k ∉ ms.map (msgKey ext) →
    (storeAfter ext folder ms st).find k = st.find k := by
  intro ms
  induction ms with
  | nil => intro st k _; simp [storeAfter]
  | cons m rest ih =>
    intro st k hk
    simp only [List.map_cons, List.mem_cons] at hk
    push_neg at hk
    simp only [storeAfter, List.foldl_cons]
    have := ih (st.insert (writeOf ext folder m).1 (writeOf ext folder m).2) k hk.2
    simp only [storeAfter] at this
    rw [this, writeOf_fst, Store.find_insert_ne st _ _ k (fun he => hk.1 he.symm)]

/-! Evaluation of Iter along each of its control paths. -/

theorem iter_noMatching_eq (ext : Ext) (mi : MailboxInfo) (conn : Conn) (st : Store)
    (e : String)
    (hsel : conn.selectErr = none)
    (hnf : ∀ m ∈ conn.envFetch.msgs, st.stat (msgKey ext m) ≠ .failed)
    (hterm : conn.envFetch.term = some e)
    (hnm : noMatching e = true) :
    iter ext mi conn st =
      ⟨.ok, st, [], scanExist ext st conn.envFetch.msgs,
        scanPend ext st conn.envFetch.msgs⟩ := by
  have hscan := scanLoop_char ext st conn.envFetch.msgs 0 [] hnf
  simp only [iter, hsel, hscan, Nat.zero_add, List.nil_append, hterm, hnm, if_pos]

theorem iter_fetchErr_eq (ext : Ext) (mi : MailboxInfo) (conn : Conn) (st : Store)
    (e : String)
    (hsel : conn.selectErr = none)
    (hnf : ∀ m ∈ conn.envFetch.msgs, st.stat (msgKey ext m) ≠ .failed)
    (hterm : conn.envFetch.term = some e)
    (hnm : noMatching e = false) :
    iter ext mi conn st =
      ⟨.err (.fetchWrapped e), st, [], scanExist ext st conn.envFetch.msgs,
        scanPend ext st conn.envFetch.msgs⟩ := by
  have hscan := scanLoop_char ext st conn.envFetch.msgs 0 [] hnf
  simp only [iter, hsel, hscan, Nat.zero_add, List.nil_append, hterm, hnm,
    Bool.false_eq_true, if_false]

theorem iter_nothing_eq (ext : Ext) (mi : MailboxInfo) (conn : Conn) (st : Store)
    (hsel : conn.selectErr = none)
    (hnf : ∀ m ∈ conn.envFetch.msgs, st.stat (msgKey ext m) ≠ .failed)
    (hterm : conn.envFetch.term = none)
    (hpe : scanPend ext st conn.envFetch.msgs = []) :
    iter ext mi conn st =
      ⟨.ok, st, [], scanExist ext st conn.envFetch.msgs, []⟩ := by
  have hscan := scanLoop_char ext st conn.envFetch.msgs 0 [] hnf
  simp only [iter, hsel, hscan, Nat.zero_add, List.nil_append, hterm, hpe,
    List.isEmpty_nil, if_pos]

theorem iter_persist_eq (ext : Ext) (mi : MailboxInfo) (conn : Conn) (st : Store)
    (hsel : conn.selectErr = none)
    (hnf : ∀ m ∈ conn.envFetch.msgs, st.stat (msgKey ext m) ≠ .failed)
    (hterm : conn.envFetch.term = none)
    (hne : scanPend ext st conn.envFetch.msgs ≠ []) :
    iter ext mi conn st =
      ⟨(persistLoop ext mi.name
          (conn.bodyFetch (scanPend ext st conn.envFetch.msgs)).term
          (conn.bodyFetch (scanPend ext st conn.envFetch.msgs)).msgs st []).outcome,
        (persistLoop ext mi.name
          (conn.bodyFetch (scanPend ext st conn.envFetch.msgs)).term
          (conn.bodyFetch (scanPend ext st conn.envFetch.msgs)).msgs st []).store,
        (persistLoop ext mi.name
          (conn.bodyFetch (scanPend ext st conn.envFetch.msgs)).term
          (conn.bodyFetch (scanPend ext st conn.envFetch.msgs)).msgs st []).writes,
        scanExist ext st conn.envFetch.msgs,
        scanPend ext st conn.envFetch.msgs⟩ := by
  have hscan := scanLoop_char ext st conn.envFetch.msgs 0 [] hnf
  have hie : (scanPend ext st conn.envFetch.msgs).isEmpty = false :=
    List.isEmpty_eq_false.mpr hne
  simp only [iter, hsel, hscan, Nat.zero_add, List.nil_append, hterm, hie,
    Bool.false_eq_true, if_false]

/-- On a well-formed server, a key whose file already exists (and whose
stat works) is never written by Iter, and its stored content is unchanged:
the scan routes every message with that key into the existing count, so the
body fetch only ever delivers messages scanned as absent. -/
theorem iter_no_rewrite (ext : Ext) (mi : MailboxInfo) (conn : Conn) (st : Store)
    (k : String) (hwf : WellFormedConn conn) (hhas : st.hasFile k)
    (hsf : k ∉ st.statFails) :
    (∀ n f, (n, f) ∈ (iter ext mi conn st).writes → n ≠ k) ∧
    (iter ext mi conn st).store.find k = st.find k := by
  have hstatk : st.stat k = .found := by
    unfold Store.stat
    rw [if_neg hsf]
    exact if_pos hhas
  unfold iter
  split
  · exact ⟨by simp, rfl⟩
  split
  · exact ⟨by simp, rfl⟩
  next ec pend heqscan =>
    have hnf := scanLoop_ok_no_failed ext st conn.envFetch.msgs 0 [] _ heqscan
    have hchar := scanLoop_char ext st conn.envFetch.msgs 0 [] hnf
    rw [heqscan] at hchar
    have hpend : pend = scanPend ext st conn.envFetch.msgs := by
      simp only [Except.ok.injEq, Prod.mk.injEq, Nat.zero_add, List.nil_append] at hchar
      exact hchar.2
    split
    · split
      · exact ⟨by simp, rfl⟩
      · exact ⟨by simp, rfl⟩
    · split
      · exact ⟨by simp, rfl⟩
      · obtain ⟨ms1, ms2, hsplit, hall, hwr, hst⟩ :=
          persistLoop_split ext mi.name (conn.bodyFetch pend).term
            (conn.bodyFetch pend).msgs st []
        have hknot : ∀ m ∈ ms1, msgKey ext m ≠ k := by
          intro m hm1
          have hmb : m ∈ (conn.bodyFetch pend).msgs := by
            rw [hsplit]
            exact List.mem_append.mpr (Or.inl hm1)
          obtain ⟨hseq, m0, hm0, hm0seq, hm0env⟩ := hwf.2 pend m hmb
          rw [hpend] at hseq
          obtain ⟨mp, hmp, hmpseq, hmpstat⟩ := scanPend_mem ext st _ _ hseq
          have hm0mp : m0 = mp :=
            List.inj_on_of_nodup_map hwf.1 hm0 hmp (by rw [hm0seq, hmpseq])
          have hkeq : msgKey ext m = msgKey ext mp := by
            rw [← hm0mp]
            simp [msgKey, hm0env]
          intro hk
          rw [hkeq] at hk
          rw [hk, hstatk] at hmpstat
          cases hmpstat
        constructor
        · intro n f hnf2
          rw [hwr, List.nil_append] at hnf2
          obtain ⟨m, hm, hwo⟩ := List.mem_map.mp hnf2
          have : n = msgKey ext m := by
            have := congrArg Prod.fst hwo
            simpa [writeOf] using this.symm
          rw [this]
          exact hknot m hm
        · rw [hst]
          apply storeAfter_find
          intro hk
          obtain ⟨m, hm, hmk⟩ := List.mem_map.mp hk
          exact hknot m hm hmk

/-- The scenario connWf satisfies the server well-formedness predicate. -/
theorem connWf_wellFormed : WellFormedConn connWf := by
  constructor
  · decide
  · intro pend m hm
    by_cases h : pend = [1]
    · have hm2 : m = msgA := by
        simp [connWf, h] at hm
        exact hm
      subst hm2
      refine ⟨by rw [h]; decide, msgA, by decide, rfl, rfl⟩
    · exfalso
      simp [connWf, h] at hm

/-! The claims. -/

/-- Claim C1: every file persisted by the body-fetch loop consists of the
serialized metadata block, then the literal separator of three dashes and a
newline, then the raw body bytes; its Size field is the decimal byte length
of the body bytes that follow the separator and its Hash field is the
256-bit digest of exactly those bytes. -/
theorem C1_record_shape (ext : Ext) (mi : MailboxInfo) (conn : Conn) (st : Store)
    (n : String) (f : List Byte)
    (h : (n, f) ∈ (iter ext mi conn st).writes) :
    ∃ (hdr : Header) (body : List Byte),
      f = ext.jsonEncode hdr ++ sepBytes ++ body ∧
      hdr.Size = Nat.repr body.length ∧
      hdr.Hash = ext.digest256 body := by
  unfold iter at h
  split at h
  · simp at h
  · split at h
    · simp at h
    · split at h
      · split at h <;> simp at h
      · split at h
        · simp at h
        · obtain ⟨ms1, ms2, hsplit, hall, hwr, hst⟩ :=
            persistLoop_split ext mi.name
              (conn.bodyFetch _).term (conn.bodyFetch _).msgs st []
          rw [hwr] at h
          simp only [List.nil_append, List.mem_map] at h
          obtain ⟨m, hm, hwo⟩ := h
          refine ⟨mkHeader ext mi.name m (bodyBytes m), bodyBytes m, ?_, rfl, rfl⟩
          have : f = recFile ext mi.name m (bodyBytes m) := by
            have := congrArg Prod.snd hwo
            simpa [writeOf] using this.symm
          rw [this, recFile]

/-- Witness for C1 on a concrete run that persists msgA. -/
theorem C1_record_shape_witness :
    ∃ (hdr : Header) (body : List Byte),
      recFile extModel "INBOX" msgA (strBytes "B1") =
        extModel.jsonEncode hdr ++ sepBytes ++ body ∧
      hdr.Size = Nat.repr body.length ∧
      hdr.Hash = extModel.digest256 body :=
  C1_record_shape extModel miInbox connGood emptyStore (msgKey extModel msgA)
    (recFile extModel "INBOX" msgA (strBytes "B1")) (by decide)

/-- Claim C3 describes intent the code does not implement: the Header type
documents InReplyTo as the parent MessageID, but the record assembly never
assigns it, so every persisted header carries the empty string even when
the envelope has an in-reply-to value (msgA's is parent@x). -/
theorem C3_in_reply_to_never_populated :
    (∀ (ext : Ext) (folder : String) (m : Msg) (bs : List Byte),
      (mkHeader ext folder m bs).InReplyTo = "") ∧
    msgA.envelope.inReplyTo = "parent@x" ∧
    (mkHeader extModel "INBOX" msgA (strBytes "B1")).InReplyTo = "" :=
  ⟨fun _ _ _ _ => rfl, rfl, rfl⟩

/-- Claim C8: key derivation is deterministic.  Whatever the state of the
shared XOF engine before the call — hence in any call order and in any
process — fn returns the same result for the same message id, and the name
is the fixed base32 image of the 32 bytes squeezed from the id. -/
theorem C8_derive_deterministic (ext : Ext) (x y : XOF) (m : String) :
    fn ext x m = fn ext y m ∧ (fn ext x m).1 = b32encode (ext.xofOut (strBytes m)) :=
  ⟨rfl, by simp [fn]⟩

/-- Claim C9 as stated is impossible: a derivation producing 32-byte keys
cannot be injective on the infinitely many message identifier strings, so
some two distinct identifiers share a derived name, whatever the XOF is. -/
theorem C9_counterexample :
    ¬ ∀ (ext : Ext) (m1 m2 : String), m1 ≠ m2 → fnName ext m1 ≠ fnName ext m2 := by
  intro h
  obtain ⟨m1, m2, hne, heq⟩ := fnName_collision extModel
  exact h extModel m1 m2 hne heq

/-- Claim C9 amended: the derivation introduces no collisions beyond the
XOF itself — the base32 filename is injective in the 32-byte key, so
distinct XOF outputs always give distinct derived names; distinctness for
distinct ids therefore holds exactly up to collisions of the external
256-bit XOF. -/
theorem C9_distinct_xof_distinct_names (ext : Ext) (m1 m2 : String)
    (h : ext.xofOut (strBytes m1) ≠ ext.xofOut (strBytes m2)) :
    fnName ext m1 ≠ fnName ext m2 := by
  intro heq
  rw [fnName_eq, fnName_eq] at heq
  exact h (b32encode_inj heq)

/-- Witness for the amended C9 at two concrete identifiers. -/
theorem C9_distinct_witness : fnName extModel "a@x" ≠ fnName extModel "b@x" :=
  C9_distinct_xof_distinct_names extModel "a@x" "b@x" (by decide)

/-- Claim C2 amended: it is the envelope-range fetch whose terminal
no-matching-messages condition is recovered: such a mailbox completes with
a nil error, writes zero files and leaves the store untouched.  The
body-range fetch has no such recovery (see the counterexample). -/
theorem C2_envelope_no_matching_ok (ext : Ext) (mi : MailboxInfo) (conn : Conn)
    (st : Store) (e : String)
    (hsel : conn.selectErr = none)
    (hnf : ∀ m ∈ conn.envFetch.msgs, st.stat (msgKey ext m) ≠ .failed)
    (hterm : conn.envFetch.term = some e)
    (hnm : noMatching e = true) :
    (iter ext mi conn st).outcome = .ok ∧
    (iter ext mi conn st).writes = [] ∧
    (iter ext mi conn st).store = st := by
  rw [iter_noMatching_eq ext mi conn st e hsel hnf hterm hnm]
  exact ⟨rfl, rfl, rfl⟩

/-- Claim C2 as stated fails for the body-range fetch: when the body fetch
terminates with the no-matching-messages error, Iter returns that error
rather than completing with nil. -/
theorem C2_counterexample :
    noMatching "No matching messages" = true ∧
    (iter extModel miInbox connBodyNoMatch emptyStore).outcome =
      .err (.bodyFetchTerm "No matching messages") ∧
    (iter extModel miInbox connBodyNoMatch emptyStore).outcome ≠ .ok :=
  ⟨by decide, by decide, by decide⟩

/-- Witness for the amended C2: an empty mailbox whose envelope fetch of
1:* fails with the no-matching condition completes with nil error and
writes nothing. -/
theorem C2_envelope_no_matching_witness :
    (iter extModel miInbox connEnvNoMatch emptyStore).outcome = .ok ∧
    (iter extModel miInbox connEnvNoMatch emptyStore).writes = [] ∧
    (iter extModel miInbox connEnvNoMatch emptyStore).store = emptyStore :=
  C2_envelope_no_matching_ok extModel miInbox connEnvNoMatch emptyStore
    "imap: No matching messages (Failure)" rfl (by decide) rfl (by decide)

/-- Claim C7: given a store already containing a file for the key of every
message of an unchanged mailbox, a second full run over it returns nil,
writes zero new files, leaves the pending set empty and reports an
existing count equal to the total message count. -/
theorem C7_second_run_idempotent (ext : Ext) (mi : MailboxInfo) (conn : Conn)
    (st : Store)
    (hsel : conn.selectErr = none)
    (hterm : conn.envFetch.term = none)
    (hall : ∀ m ∈ conn.envFetch.msgs, st.stat (msgKey ext m) = .found) :
    (iter ext mi conn st).outcome = .ok ∧
    (iter ext mi conn st).writes = [] ∧
    (iter ext mi conn st).pending = [] ∧
    (iter ext mi conn st).existCount = conn.envFetch.msgs.length ∧
    (iter ext mi conn st).store = st := by
  have hnf : ∀ m ∈ conn.envFetch.msgs, st.stat (msgKey ext m) ≠ .failed := by
    intro m hm
    rw [hall m hm]
    decide
  have hpe : scanPend ext st conn.envFetch.msgs = [] := by
    have hf : conn.envFetch.msgs.filter
        (fun m => st.stat (msgKey ext m) == .notExist) = [] :=
      List.filter_eq_nil_iff.mpr (fun m hm => by rw [hall m hm]; decide)
    simp [scanPend, hf]
  have hexist : scanExist ext st conn.envFetch.msgs = conn.envFetch.msgs.length :=
    List.countP_eq_length.mpr (fun m hm => by rw [hall m hm]; decide)
  rw [iter_nothing_eq ext mi conn st hsel hnf hterm hpe]
  exact ⟨rfl, rfl, rfl, hexist, rfl⟩

/-- Witness for C7: a run over a mailbox whose only message is already in
the store. -/
theorem C7_second_run_witness :
    (iter extModel miInbox connScanOnly storeWithA).outcome = .ok ∧
    (iter extModel miInbox connScanOnly storeWithA).writes = [] ∧
    (iter extModel miInbox connScanOnly storeWithA).pending = [] ∧
    (iter extModel miInbox connScanOnly storeWithA).existCount =
      connScanOnly.envFetch.msgs.length ∧
    (iter extModel miInbox connScanOnly storeWithA).store = storeWithA :=
  C7_second_run_idempotent extModel miInbox connScanOnly storeWithA rfl rfl (by decide)

/-- Claim C4 as stated fails: two messages carrying the same MessageId in
one mailbox's pending set are both persisted, so the same StoreKey is
written twice within a single run (the second write updating the record
the first created). -/
theorem C4_counterexample :
    (iter extModel miInbox connDup emptyStore).outcome = .ok ∧
    (iter extModel miInbox connDup emptyStore).writes.map Prod.fst =
      [msgKey extModel msgDup1, msgKey extModel msgDup1] ∧
    ¬ ((iter extModel miInbox connDup emptyStore).writes.map Prod.fst).Nodup :=
  ⟨by decide, by decide, by decide⟩

/-- Claim C4 amended: within one run over a mailbox, each StoreKey is
written at most once provided the messages delivered by the body fetch
have pairwise distinct derived keys (in particular pairwise distinct
MessageIds) — duplicate MessageIds inside one pending set violate the
at-most-once write — and, on a well-formed server, a StoreKey already
present in the store (with a working stat) is never rewritten: its record
stays as first created. -/
theorem C4_key_written_at_most_once (ext : Ext) (mi : MailboxInfo) (conn : Conn)
    (st : Store)
    (hkeys : ∀ pend : List Nat, ((conn.bodyFetch pend).msgs.map (msgKey ext)).Nodup) :
    ((iter ext mi conn st).writes.map Prod.fst).Nodup ∧
    (WellFormedConn conn → ∀ k, st.hasFile k → k ∉ st.statFails →
      (∀ n f, (n, f) ∈ (iter ext mi conn st).writes → n ≠ k) ∧
      (iter ext mi conn st).store.find k = st.find k) := by
  refine ⟨?_, fun hwf k hhas hsf => iter_no_rewrite ext mi conn st k hwf hhas hsf⟩
  unfold iter
  split
  · simp
  split
  · simp
  next ec pend heqscan =>
    split
    · split <;> simp
    · split
      · simp
      · obtain ⟨ms1, ms2, hsplit, hall, hwr, hst⟩ :=
          persistLoop_split ext mi.name (conn.bodyFetch pend).term
            (conn.bodyFetch pend).msgs st []
        simp only [hwr, List.nil_append]
        have hmk : (ms1.map (writeOf ext mi.name)).map Prod.fst =
            ms1.map (msgKey ext) := by
          simp [List.map_map, Function.comp, writeOf]
        rw [hmk]
        have hnd := hkeys pend
        rw [hsplit, List.map_append] at hnd
        exact hnd.of_append_left

/-- Witness for the amended C4: a well-formed run that persists msgA while
msgB's key is already stored: the write names are without duplicate and
none of them is the stored key. -/
theorem C4_at_most_once_witness :
    ((iter extModel miInbox connWf storeWithB).writes.map Prod.fst).Nodup ∧
    (∀ n f, (n, f) ∈ (iter extModel miInbox connWf storeWithB).writes →
      n ≠ msgKey extModel msgB) ∧
    (iter extModel miInbox connWf storeWithB).store.find (msgKey extModel msgB) =
      storeWithB.find (msgKey extModel msgB) := by
  have hk : ∀ pend : List Nat,
      ((connWf.bodyFetch pend).msgs.map (msgKey extModel)).Nodup := by
    intro pend
    simp only [connWf]
    by_cases h : pend = [1]
    · rw [if_pos h]
      decide
    · rw [if_neg h]
      decide
  have h := C4_key_written_at_most_once extModel miInbox connWf storeWithB hk
  have h2 := h.2 connWf_wellFormed (msgKey extModel msgB) (by decide) (by decide)
  exact ⟨h.1, h2.1, h2.2⟩

/-- Claim C5: the derived StoreKey is a function of the MessageId alone —
no other message field and no mailbox name enters the derivation — and a
key whose file already exists is never written again by a run over any
further mailbox of a well-formed server, so a message reappearing in a
second mailbox collapses onto the one stored file. -/
theorem C5_storekey_depends_only_on_message_id :
    (∀ (ext : Ext) (m1 m2 : Msg), m1.envelope.messageId = m2.envelope.messageId →
      msgKey ext m1 = msgKey ext m2) ∧
    (∀ (ext : Ext) (mi : MailboxInfo) (conn : Conn) (st : Store) (k : String),
      WellFormedConn conn → st.hasFile k → k ∉ st.statFails →
      (∀ n f, (n, f) ∈ (iter ext mi conn st).writes → n ≠ k) ∧
      (iter ext mi conn st).store.find k = st.find k) := by
  constructor
  · intro ext m1 m2 h
    simp [msgKey, h]
  · intro ext mi conn st k hwf hhas hsf
    exact iter_no_rewrite ext mi conn st k hwf hhas hsf

/-- Witness for C5 on a mailbox whose message is already stored. -/
theorem C5_collapse_witness :
    (∀ n f, (n, f) ∈ (iter extModel miInbox connScanOnly storeWithA).writes →
      n ≠ msgKey extModel msgA) ∧
    (iter extModel miInbox connScanOnly storeWithA).store.find (msgKey extModel msgA) =
      storeWithA.find (msgKey extModel msgA) :=
  C5_storekey_depends_only_on_message_id.2 extModel miInbox connScanOnly storeWithA
    (msgKey extModel msgA)
    ⟨by decide, fun pend m hm => absurd hm (List.not_mem_nil m)⟩
    (by decide) (by decide)

/-- Claim C6 as stated fails in one corner: when the pending set holds two
messages with the same MessageId and the body read of the second fails, the
run aborts with the hash-body error while the store does contain a file
named by the failing message's key, written for its same-key predecessor. -/
theorem C6_counterexample :
    (iter extModel miInbox connDupFail emptyStore).outcome = .err .hashBody ∧
    (iter extModel miInbox connDupFail emptyStore).store.hasFile
      (msgKey extModel msgDup2F) :=
  ⟨by decide, by decide⟩

/-- Claim C6 amended: a mid-stream failure aborts the mailbox with the
expected error and performs no write for the message in flight — writes
happen only for fully assembled records of earlier messages — so no file
for the failing message's key exists unless an earlier message of the same
run shared that key or it was already stored.  Part one: a generic
envelope-stream failure returns the wrapped fetch error with zero writes;
part two: a body-read failure returns the hash-body error with exactly the
earlier messages' records written. -/
theorem C6_stream_failure_no_partial_write :
    (∀ (ext : Ext) (mi : MailboxInfo) (conn : Conn) (st : Store) (e : String),
      conn.selectErr = none →
      (∀ m ∈ conn.envFetch.msgs, st.stat (msgKey ext m) ≠ .failed) →
      conn.envFetch.term = some e → noMatching e = false →
      (iter ext mi conn st).outcome = .err (.fetchWrapped e) ∧
      (iter ext mi conn st).writes = [] ∧
      (iter ext mi conn st).store = st) ∧
    (∀ (ext : Ext) (mi : MailboxInfo) (conn : Conn) (st : Store)
      (pre rest : List Msg) (m : Msg) (bs : List Byte),
      conn.selectErr = none →
      (∀ q ∈ conn.envFetch.msgs, st.stat (msgKey ext q) ≠ .failed) →
      conn.envFetch.term = none →
      scanPend ext st conn.envFetch.msgs ≠ [] →
      (conn.bodyFetch (scanPend ext st conn.envFetch.msgs)).msgs = pre ++ m :: rest →
      (∀ p ∈ pre, p.body = .bytes (bodyBytes p) ∧ msgKey ext p ∉ st.writeFails) →
      m.body = .failAfter bs →
      (iter ext mi conn st).outcome = .err .hashBody ∧
      (iter ext mi conn st).writes = pre.map (writeOf ext mi.name) ∧
      (msgKey ext m ∉ pre.map (msgKey ext) → ¬ st.hasFile (msgKey ext m) →
        ¬ (iter ext mi conn st).store.hasFile (msgKey ext m))) := by
  constructor
  · intro ext mi conn st e hsel hnf hterm hnm
    rw [iter_fetchErr_eq ext mi conn st e hsel hnf hterm hnm]
    exact ⟨rfl, rfl, rfl⟩
  · intro ext mi conn st pre rest m bs hsel hnf hterm hne hsplit hpre hbody
    rw [iter_persist_eq ext mi conn st hsel hnf hterm hne]
    simp only [hsplit]
    rw [persistLoop_pre ext mi.name _ pre (m :: rest) st [] hpre]
    have hstep : persistStep ext mi.name m = .readFail := by
      simp [persistStep, hbody]
    refine ⟨by simp [persistLoop, hstep], by simp [persistLoop, hstep], ?_⟩
    intro hnotpre hnotst
    simp only [persistLoop, hstep]
    rw [storeAfter_hasFile]
    exact fun hc => hc.elim hnotpre hnotst

/-- Witness for the amended C6: msgA persists, then the body read of the
distinct message msgBFail fails; its key has no file. -/
theorem C6_no_partial_write_witness :
    (iter extModel miInbox connAthenFail emptyStore).outcome = .err .hashBody ∧
    (iter extModel miInbox connAthenFail emptyStore).writes =
      [msgA].map (writeOf extModel "INBOX") ∧
    ¬ (iter extModel miInbox connAthenFail emptyStore).store.hasFile
      (msgKey extModel msgBFail) := by
  have h := C6_stream_failure_no_partial_write.2 extModel miInbox connAthenFail
    emptyStore [msgA] [] msgBFail [] rfl (by decide) rfl (by decide) rfl
    (by decide) rfl
  exact ⟨h.1, h.2.1, h.2.2 (by decide) (by decide)⟩

/-- Claim C10: the body-persist step is total only when the requested body
section is present; a message delivered without it makes the tee copy read
from a nil literal, so Iter panics instead of returning an error. -/
theorem C10_nil_body_panics (ext : Ext) (mi : MailboxInfo) (conn : Conn) (st : Store)
    (pre rest : List Msg) (m : Msg)
    (hsel : conn.selectErr = none)
    (hnf : ∀ q ∈ conn.envFetch.msgs, st.stat (msgKey ext q) ≠ .failed)
    (hterm : conn.envFetch.term = none)
    (hne : scanPend ext st conn.envFetch.msgs ≠ [])
    (hsplit : (conn.bodyFetch (scanPend ext st conn.envFetch.msgs)).msgs =
      pre ++ m :: rest)
    (hpre : ∀ p ∈ pre, p.body = .bytes (bodyBytes p) ∧ msgKey ext p ∉ st.writeFails)
    (habs : m.body = .absent) :
    (iter ext mi conn st).outcome = .panicNilBody := by
  rw [iter_persist_eq ext mi conn st hsel hnf hterm hne]
  simp only [hsplit]
  rw [persistLoop_pre ext mi.name _ pre (m :: rest) st [] hpre]
  simp [persistLoop, persistStep, habs]

/-- Witness for C10: the body fetch delivers msgA without its body section
and the run panics. -/
theorem C10_nil_body_witness :
    (iter extModel miInbox connNilBody emptyStore).outcome = .panicNilBody :=
  C10_nil_body_panics extModel miInbox connNilBody emptyStore [] [] msgANilBody
    rfl (by decide) rfl (by decide) rfl
    (fun p hp => absurd hp (List.not_mem_nil p)) rfl

end Imapdown
